import Mathlib

/-!
Verification of the FitIt generic repository layer
(`apps/backend/src/repositories/base.repository.ts`) against its design
specification.  The DynamoDB document client is modelled as a table of
string-keyed documents supporting the conditional commands the repository
issues (`attribute_not_exists(id)` on create, `attribute_exists(id)` on
update/delete, `SET` update expressions with attribute-name/value
placeholder tables).  JavaScript objects are modelled as association lists
in insertion order, matching `Object.entries` iteration and spread-merge
semantics.  Timestamps (`new Date().toISOString()`) are passed in
explicitly as strings; fallible client round-trips take an optional
injected fault carrying the thrown error's `name`.
-/

set_option maxHeartbeats 1000000

namespace FitIt

/-- A JavaScript object: string keys with string attribute values, kept in
insertion order.  Keys are unique in any object produced by the embedding. -/
abbrev Obj := List (String × String)

/-- Property lookup `o[k]`: first binding wins (keys are unique anyway). -/
def getK {α : Type} : List (String × α) → String → Option α
  | [], _ => none
  | (k', v) :: rest, k => if k' = k then some v else getK rest k

/-- Property assignment / spread-merge of one key:  replaces the value at an
existing key in place (JS objects keep the original key position) and
appends the binding otherwise. -/
def setK {α : Type} : List (String × α) → String → α → List (String × α)
  | [], k, v => [(k, v)]
  | (k', v') :: rest, k, v =>
    if k' = k then (k, v) :: rest else (k', v') :: setK rest k v

/-- Removal of a key (used by the store for DeleteCommand). -/
def delK {α : Type} : List (String × α) → String → List (String × α)
  | [], _ => []
  | (k', v') :: rest, k => if k' = k then rest else (k', v') :: delK rest k

/-- A DynamoDB table: primary key `id` mapped to the stored document. -/
abbrev Table := List (String × Obj)

/-- Log levels from `utils/logger.ts`. -/
inductive LogLevel where
  | debug
  | info
  | warn
  | error
deriving DecidableEq, Repr

/-- `LOG_LEVEL_PRIORITY` from `utils/logger.ts`. -/
def LOG_LEVEL_PRIORITY : LogLevel → Nat
  | .debug => 0
  | .info => 1
  | .warn => 2
  | .error => 3

/-- `shouldLog` from `utils/logger.ts`: the current minimum level is DEBUG in
development and INFO otherwise. -/
def shouldLog (isDevelopment : Bool) (level : LogLevel) : Bool :=
  LOG_LEVEL_PRIORITY level ≥
    LOG_LEVEL_PRIORITY (if isDevelopment then .debug else .info)

/-- One emitted log event: level, message and structured context data. -/
structure LogEntry where
  level : LogLevel
  message : String
  data : List (String × String)
deriving DecidableEq, Repr

/-- The error taxonomy from `utils/errors.ts` as raised by the repository:
`NotFoundError` carries the entity kind (resource) name and the requested
id; `DatabaseError` carries its message. -/
inductive RepoError where
  | notFoundError (resource : String) (id : String)
  | databaseError (message : String)
deriving DecidableEq, Repr

deriving instance DecidableEq for Except

/-- The error name the AWS SDK reports when a ConditionExpression fails. -/
def conditionalCheckFailed : String := "ConditionalCheckFailedException"

/-- The primary-key attribute of a document (`item.id`). -/
def itemId (item : Obj) : String := (getK item "id").getD ""

/-- Outcome of one document-client round-trip: a (possibly updated) table
with a returned value, or a thrown error identified by its `name`. -/
inductive DynamoOutcome (α : Type) where
  | ok (table : Table) (value : α)
  | err (name : String)
deriving Repr

/-- GetCommand on the primary key. -/
def dynGet (t : Table) (id : String) (fault : Option String) :
    DynamoOutcome (Option Obj) :=
  match fault with
  | some n => .err n
  | none => .ok t (getK t id)

/-- ScanCommand with an optional `Limit`. -/
def dynScan (t : Table) (limit : Option Nat) (fault : Option String) :
    DynamoOutcome (List Obj) :=
  match fault with
  | some n => .err n
  | none =>
    match limit with
    | none => .ok t (t.map Prod.snd)
    | some n => .ok t ((t.map Prod.snd).take n)

/-- PutCommand guarded by `ConditionExpression: 'attribute_not_exists(id)'`:
the write is rejected with a conditional-check failure when a document with
the same key already exists. -/
def dynPutIfAbsent (t : Table) (item : Obj) (fault : Option String) :
    DynamoOutcome Unit :=
  match fault with
  | some n => .err n
  | none =>
    match getK t (itemId item) with
    | some _ => .err conditionalCheckFailed
    | none => .ok (setK t (itemId item) item) ()

/-- The parameterized `SET` instruction sent in an UpdateCommand: the
`UpdateExpression` clauses (attribute-name placeholder paired with its
value placeholder, rendered as `n = v` and joined by the client library),
together with `ExpressionAttributeNames` and `ExpressionAttributeValues`. -/
structure UpdateExpr where
  clauses : List (String × String)
  names : List (String × String)
  values : List (String × String)
deriving DecidableEq, Repr

/-- The rendered text of one clause, exactly as pushed onto
`updateExpressionParts`. -/
def clauseStr (c : String × String) : String := c.1 ++ " = " ++ c.2

/-- The synthetic attribute-name placeholder for the field at `index`. -/
def attrNamePlaceholder (index : Nat) : String := "#attr" ++ toString index

/-- The synthetic value placeholder for the field at `index`. -/
def attrValuePlaceholder (index : Nat) : String := ":val" ++ toString index

/-- The dynamic update-expression builder from `BaseRepository.update`: it
walks `Object.entries(updatesWithTimestamp)` with the positional index,
skips the key `id`, and for every other field pushes one
`#attrN = :valN` clause while recording the placeholder-to-name and
placeholder-to-value tables. -/
def buildUpdateExpr : List (String × String) → Nat → UpdateExpr
  | [], _ => ⟨[], [], []⟩
  | (key, value) :: rest, index =>
    let tail := buildUpdateExpr rest (index + 1)
    if key = "id" then tail
    else
      ⟨(attrNamePlaceholder index, attrValuePlaceholder index) :: tail.clauses,
       (attrNamePlaceholder index, key) :: tail.names,
       (attrValuePlaceholder index, value) :: tail.values⟩

/-- Store-side resolution of one `SET` clause through the attribute-name and
value tables. -/
def resolveClause (e : UpdateExpr) (c : String × String) :
    Option (String × String) :=
  match getK e.names c.1, getK e.values c.2 with
  | some k, some v => some (k, v)
  | _, _ => none

/-- Store-side application of a `SET` expression to a stored document. -/
def applyExpr (item : Obj) (e : UpdateExpr) : Obj :=
  (e.clauses.filterMap (resolveClause e)).foldl
    (fun o kv => setK o kv.1 kv.2) item

/-- UpdateCommand guarded by `ConditionExpression: 'attribute_exists(id)'`
with `ReturnValues: 'ALL_NEW'`. -/
def dynUpdateExisting (t : Table) (id : String) (e : UpdateExpr)
    (fault : Option String) : DynamoOutcome Obj :=
  match fault with
  | some n => .err n
  | none =>
    match getK t id with
    | none => .err conditionalCheckFailed
    | some item =>
      let newItem := applyExpr item e
      .ok (setK t id newItem) newItem

/-- DeleteCommand guarded by `ConditionExpression: 'attribute_exists(id)'`. -/
def dynDeleteExisting (t : Table) (id : String) (fault : Option String) :
    DynamoOutcome Unit :=
  match fault with
  | some n => .err n
  | none =>
    match getK t id with
    | none => .err conditionalCheckFailed
    | some _ => .ok (delK t id) ()

/-- Repository-visible state: the backing table plus the emitted log.
Repository code only calls `logger.info` and `logger.error`, which pass the
`shouldLog` threshold in both development and production, so emission is
modelled as unconditional append (see `shouldLog_info_and_error`). -/
structure RepoState where
  table : Table
  log : List LogEntry
deriving DecidableEq, Repr

namespace BaseRepository

/-- `BaseRepository.getById`. -/
def getById (entityName tableName : String) (st : RepoState) (id : String)
    (fault : Option String) : Except RepoError (Option Obj) × RepoState :=
  match dynGet st.table id fault with
  | .ok _ item => (.ok item, st)
  | .err n =>
    (.error (.databaseError ("Failed to retrieve " ++ entityName)),
     { st with
        log := st.log ++
          [⟨.error, "Failed to get " ++ entityName ++ " by ID",
            [("tableName", tableName), ("id", id), ("error", n)]⟩] })

/-- `BaseRepository.getByIdOrThrow`. -/
def getByIdOrThrow (entityName tableName : String) (st : RepoState)
    (id : String) (fault : Option String) : Except RepoError Obj × RepoState :=
  match getById entityName tableName st id fault with
  | (.ok (some item), st') => (.ok item, st')
  | (.ok none, st') => (.error (.notFoundError entityName id), st')
  | (.error e, st') => (.error e, st')

/-- `BaseRepository.getAll`.  The source spreads
`...(limit && { Limit: limit })` into the ScanCommand, so a limit of `0`
is falsy and no `Limit` is sent. -/
def getAll (entityName tableName : String) (st : RepoState)
    (limit : Option Nat) (fault : Option String) :
    Except RepoError (List Obj) × RepoState :=
  let sentLimit : Option Nat :=
    match limit with
    | some n => if n = 0 then none else some n
    | none => none
  match dynScan st.table sentLimit fault with
  | .ok _ items => (.ok items, st)
  | .err n =>
    (.error (.databaseError ("Failed to retrieve " ++ entityName ++ " list")),
     { st with
        log := st.log ++
          [⟨.error, "Failed to scan " ++ entityName,
            [("tableName", tableName), ("error", n)]⟩] })

/-- The timestamp injection in `BaseRepository.create`:
`{ ...item, createdAt: now, updatedAt: now }`. -/
def withTimestamps (item : Obj) (now : String) : Obj :=
  setK (setK item "createdAt" now) "updatedAt" now

/-- `BaseRepository.create`.  A conditional-check failure is mapped to a
duplicate-id `DatabaseError` before the logging statement is reached. -/
def create (entityName tableName : String) (st : RepoState) (item : Obj)
    (now : String) (fault : Option String) : Except RepoError Obj × RepoState :=
  let itemWithTimestamps := withTimestamps item now
  match dynPutIfAbsent st.table itemWithTimestamps fault with
  | .ok t _ =>
    (.ok itemWithTimestamps,
     ⟨t, st.log ++ [⟨.info, "Created " ++ entityName, [("id", itemId item)]⟩]⟩)
  | .err n =>
    if n = conditionalCheckFailed then
      (.error (.databaseError (entityName ++ " with this ID already exists")),
       st)
    else
      (.error (.databaseError ("Failed to create " ++ entityName)),
       { st with
          log := st.log ++
            [⟨.error, "Failed to create " ++ entityName,
              [("tableName", tableName), ("id", itemId item),
               ("error", n)]⟩] })

/-- `BaseRepository.update`:  injects `updatedAt` into the payload, builds
the dynamic `SET` expression, short-circuits to `getByIdOrThrow` when no
clause was produced, and otherwise issues the existence-conditioned
UpdateCommand. -/
def update (entityName tableName : String) (st : RepoState) (id : String)
    (updates : Obj) (now : String) (fault : Option String) :
    Except RepoError Obj × RepoState :=
  let updatesWithTimestamp := setK updates "updatedAt" now
  let expr := buildUpdateExpr updatesWithTimestamp 0
  if expr.clauses.isEmpty then
    getByIdOrThrow entityName tableName st id fault
  else
    match dynUpdateExisting st.table id expr fault with
    | .ok t newItem =>
      (.ok newItem,
       ⟨t, st.log ++ [⟨.info, "Updated " ++ entityName, [("id", id)]⟩]⟩)
    | .err n =>
      if n = conditionalCheckFailed then
        (.error (.notFoundError entityName id), st)
      else
        (.error (.databaseError ("Failed to update " ++ entityName)),
         { st with
            log := st.log ++
              [⟨.error, "Failed to update " ++ entityName,
                [("tableName", tableName), ("id", id), ("error", n)]⟩] })

/-- `BaseRepository.delete`. -/
def delete (entityName tableName : String) (st : RepoState) (id : String)
    (fault : Option String) : Except RepoError Unit × RepoState :=
  match dynDeleteExisting st.table id fault with
  | .ok t _ =>
    (.ok (),
     ⟨t, st.log ++ [⟨.info, "Deleted " ++ entityName, [("id", id)]⟩]⟩)
  | .err n =>
    if n = conditionalCheckFailed then
      (.error (.notFoundError entityName id), st)
    else
      (.error (.databaseError ("Failed to delete " ++ entityName)),
       { st with
          log := st.log ++
            [⟨.error, "Failed to delete " ++ entityName,
              [("tableName", tableName), ("id", id), ("error", n)]⟩] })

end BaseRepository

/-- A sequence of fault-free update calls against one id, each with its own
partial payload and clock reading. -/
def updateSeq (entityName tableName : String) (st : RepoState) (id : String) :
    List (Obj × String) → RepoState
  | [] => st
  | (u, now) :: rest =>
    updateSeq entityName tableName
      (BaseRepository.update entityName tableName st id u now none).2 id rest

/-- The repository only emits INFO- and ERROR-level events, and those pass
the logger's level threshold in both development and production, which
justifies modelling emission as unconditional append. -/
theorem shouldLog_info_and_error (isDevelopment : Bool) :
    shouldLog isDevelopment .info = true ∧
    shouldLog isDevelopment .error = true := by
  cases isDevelopment <;> constructor <;> rfl

/-! ### Association-list lemmas -/

theorem getK_setK_self {α : Type} (o : List (String × α)) (k : String) (v : α) :
    getK (setK o k v) k = some v := by
  induction o with
  | nil => simp [setK, getK]
  | cons p rest ih =>
    obtain ⟨k', v'⟩ := p
    by_cases h : k' = k
    · simp [setK, getK, h]
    · simp [setK, getK, h, ih]

theorem getK_setK_ne {α : Type} (o : List (String × α)) {k k₀ : String}
    (v : α) (h : k₀ ≠ k) : getK (setK o k v) k₀ = getK o k₀ := by
  induction o with
  | nil => simp [setK, getK, Ne.symm h]
  | cons p rest ih =>
    obtain ⟨k', v'⟩ := p
    by_cases hk : k' = k
    · subst hk
      simp [setK, getK, Ne.symm h]
    · simp only [setK, if_neg hk, getK]
      by_cases hk₀ : k' = k₀ <;> simp [hk₀, ih]

theorem getK_eq_none_of_keys_ne {α : Type} {o : List (String × α)}
    {k : String} (h : ∀ p ∈ o, p.1 ≠ k) : getK o k = none := by
  induction o with
  | nil => rfl
  | cons p rest ih =>
    obtain ⟨k', v'⟩ := p
    have hne : k' ≠ k := h (k', v') (by simp)
    simp only [getK, if_neg hne]
    exact ih fun q hq => h q (by simp [hq])

theorem keys_ne_of_getK_eq_none {α : Type} {o : List (String × α)}
    {k : String} (h : getK o k = none) : ∀ p ∈ o, p.1 ≠ k := by
  induction o with
  | nil => simp
  | cons p rest ih =>
    obtain ⟨k', v'⟩ := p
    by_cases hk : k' = k
    · simp [getK, hk] at h
    · simp only [getK, if_neg hk] at h
      intro q hq
      rcases List.mem_cons.mp hq with hq | hq
      · subst hq; exact hk
      · exact ih h q hq

/-- First-defined choice between two optional lookups. -/
def firstSome {α : Type} : Option α → Option α → Option α
  | some v, _ => some v
  | none, b => b

theorem getK_append {α : Type} (l₁ l₂ : List (String × α)) (k : String) :
    getK (l₁ ++ l₂) k = firstSome (getK l₁ k) (getK l₂ k) := by
  induction l₁ with
  | nil => simp [getK, firstSome]
  | cons p rest ih =>
    obtain ⟨k', v'⟩ := p
    by_cases h : k' = k <;> simp [getK, h, ih, firstSome]

theorem getK_foldl_setK {α : Type} (l : List (String × α))
    (o : List (String × α)) (k : String) :
    getK (l.foldl (fun acc kv => setK acc kv.1 kv.2) o) k
      = firstSome (getK l.reverse k) (getK o k) := by
  induction l generalizing o with
  | nil => simp [getK, firstSome]
  | cons p rest ih =>
    obtain ⟨k₀, v₀⟩ := p
    rw [List.foldl_cons, ih, List.reverse_cons, getK_append]
    cases hrev : getK rest.reverse k with
    | some v => simp [firstSome]
    | none =>
      simp only [firstSome]
      by_cases hk : k₀ = k
      · subst hk
        simp [getK, getK_setK_self, firstSome]
      · simp [getK, hk, getK_setK_ne o v₀ (Ne.symm hk), firstSome]

theorem mem_setK {α : Type} {o : List (String × α)} {k : String} {v : α}
    {p : String × α} (h : p ∈ setK o k v) : p ∈ o ∨ p.1 = k := by
  induction o with
  | nil => simp [setK] at h; simp [h]
  | cons q rest ih =>
    obtain ⟨k', v'⟩ := q
    by_cases hk : k' = k
    · simp only [setK, if_pos hk] at h
      rcases List.mem_cons.mp h with h | h
      · simp [h]
      · exact Or.inl (by simp [h])
    · simp only [setK, if_neg hk] at h
      rcases List.mem_cons.mp h with h | h
      · exact Or.inl (by simp [h])
      · rcases ih h with h | h
        · exact Or.inl (by simp [h])
        · exact Or.inr h

theorem setK_exists_key {α : Type} (o : List (String × α)) (k : String)
    (v : α) : ∃ p ∈ setK o k v, p.1 = k := by
  induction o with
  | nil => exact ⟨(k, v), by simp [setK]⟩
  | cons q rest ih =>
    obtain ⟨k', v'⟩ := q
    by_cases hk : k' = k
    · exact ⟨(k, v), by simp [setK, hk]⟩
    · obtain ⟨p, hp, hpk⟩ := ih
      exact ⟨p, by simp [setK, hk, hp], hpk⟩

/-- The keys of a JavaScript object are pairwise distinct; all objects the
embedding manipulates are built from payloads satisfying this. -/
def KeysNodup {α : Type} (o : List (String × α)) : Prop :=
  (o.map Prod.fst).Nodup

instance {α : Type} [DecidableEq α] (o : List (String × α)) :
    Decidable (KeysNodup o) :=
  inferInstanceAs (Decidable (List.Nodup _))

theorem mem_keys_setK {α : Type} {o : List (String × α)} {k k₀ : String}
    {v : α} (h : k₀ ∈ (setK o k v).map Prod.fst) :
    k₀ ∈ o.map Prod.fst ∨ k₀ = k := by
  rcases List.mem_map.mp h with ⟨p, hp, hpk⟩
  rcases mem_setK hp with hmem | hkey
  · exact Or.inl (hpk ▸ List.mem_map_of_mem Prod.fst hmem)
  · exact Or.inr (hpk ▸ hkey)

theorem keysNodup_setK {α : Type} {o : List (String × α)} (k : String)
    (v : α) (h : KeysNodup o) : KeysNodup (setK o k v) := by
  induction o with
  | nil => simp [KeysNodup, setK]
  | cons q rest ih =>
    obtain ⟨k', v'⟩ := q
    simp only [KeysNodup, List.map_cons, List.nodup_cons] at h
    by_cases hk : k' = k
    · subst hk
      simpa [KeysNodup, setK] using h
    · have hrest := ih h.2
      simp only [KeysNodup, setK, if_neg hk, List.map_cons, List.nodup_cons]
      refine ⟨fun hmem => ?_, hrest⟩
      rcases mem_keys_setK hmem with hmem | hmem
      · exact h.1 hmem
      · exact hk hmem

theorem getK_reverse_of_keysNodup {α : Type} {o : List (String × α)}
    (k : String) (h : KeysNodup o) : getK o.reverse k = getK o k := by
  induction o with
  | nil => rfl
  | cons p rest ih =>
    obtain ⟨k₀, v₀⟩ := p
    simp only [KeysNodup, List.map_cons, List.nodup_cons] at h
    rw [List.reverse_cons, getK_append, ih h.2]
    by_cases hk : k₀ = k
    · subst hk
      have : getK rest k₀ = none :=
        getK_eq_none_of_keys_ne fun p hp => by
          intro hbad
          exact h.1 (hbad ▸ List.mem_map_of_mem Prod.fst hp)
      simp [this, getK, firstSome]
    · cases hr : getK rest k <;> simp [getK, hk, firstSome, hr]

theorem getK_filter {α : Type} (q : String × α → Bool)
    (l : List (String × α)) (k : String)
    (h : ∀ p ∈ l, p.1 = k → q p = true) :
    getK (l.filter q) k = getK l k := by
  induction l with
  | nil => rfl
  | cons p rest ih =>
    obtain ⟨k', v'⟩ := p
    have ihr := ih fun p hp => h p (by simp [hp])
    by_cases hk : k' = k
    · subst hk
      have hq : q (k', v') = true := h (k', v') (by simp) rfl
      simp [List.filter_cons, hq, getK]
    · by_cases hq : q (k', v') = true
      · simp [List.filter_cons, hq, getK, hk, ihr]
      · simp only [List.filter_cons, Bool.not_eq_true] at hq ⊢
        simp [hq, getK, hk, ihr]

theorem keysNodup_filter {α : Type} (q : String × α → Bool)
    {o : List (String × α)} (h : KeysNodup o) : KeysNodup (o.filter q) :=
  ((o.filter_sublist).map Prod.fst).nodup h

/-! ### Injectivity of the decimal rendering used by the placeholder
templates (`toString index` in the source's template literals) -/

/-- The character list `Nat.repr` produces, described through `Nat.digits`. -/
def revDigits (n : Nat) : List Char :=
  if n = 0 then ['0'] else ((Nat.digits 10 n).map Nat.digitChar).reverse

theorem lt_ten_pow_succ (n : Nat) : n < 10 ^ (n + 1) := by
  induction n with
  | zero => norm_num
  | succ m ih =>
    have hpos : 0 < 10 ^ (m + 1) := Nat.pos_pow_of_pos _ (by norm_num)
    have hstep : 10 ^ (m + 2) = 10 ^ (m + 1) * 10 := pow_succ 10 (m + 1)
    omega

theorem toDigitsCore_eq_revDigits (fuel : Nat) :
    ∀ (n : Nat) (ds : List Char), 0 < fuel → n < 10 ^ fuel →
      Nat.toDigitsCore 10 fuel n ds = revDigits n ++ ds := by
  induction fuel with
  | zero => intro n ds hfuel _; omega
  | succ f ih =>
    intro n ds _ hn
    simp only [Nat.toDigitsCore]
    by_cases hdiv : n / 10 = 0
    · have hlt : n < 10 := by omega
      simp only [hdiv, if_pos rfl]
      by_cases h0 : n = 0
      · subst h0; rfl
      · have hpos : 0 < n := Nat.pos_of_ne_zero h0
        have hds : Nat.digits 10 n = [n] := by
          rw [Nat.digits_def' (by norm_num : (1:ℕ) < 10) hpos, hdiv,
            Nat.digits_zero, Nat.mod_eq_of_lt hlt]
        simp [revDigits, h0, hds, Nat.mod_eq_of_lt hlt]
    · have hge : 10 ≤ n := by omega
      have hfpos : 0 < f := by
        rcases Nat.eq_zero_or_pos f with hf | hf
        · subst hf; simp at hn; omega
        · exact hf
      have hlt : n / 10 < 10 ^ f := by
        have h1 : n < 10 ^ f * 10 := by
          have := pow_succ 10 f
          omega
        exact (Nat.div_lt_iff_lt_mul (by norm_num)).mpr h1
      rw [if_neg hdiv, ih (n / 10) _ hfpos hlt]
      have hne : n ≠ 0 := by omega
      have hdne : n / 10 ≠ 0 := hdiv
      have hds : Nat.digits 10 n = n % 10 :: Nat.digits 10 (n / 10) :=
        Nat.digits_def' (by norm_num) (Nat.pos_of_ne_zero hne)
      simp [revDigits, hne, hdne, hds]

theorem nat_repr_eq_revDigits (n : Nat) :
    Nat.repr n = (revDigits n).asString := by
  rw [Nat.repr, Nat.toDigits,
    toDigitsCore_eq_revDigits (n + 1) n [] (by omega)
      (lt_ten_pow_succ n), List.append_nil]

theorem asString_inj {l₁ l₂ : List Char} (h : l₁.asString = l₂.asString) :
    l₁ = l₂ :=
  congrArg String.data h

theorem digitChar_inj_lt :
    ∀ a < 10, ∀ b < 10, Nat.digitChar a = Nat.digitChar b → a = b := by
  decide

theorem map_digitChar_inj :
    ∀ l₁ l₂ : List Nat, (∀ x ∈ l₁, x < 10) → (∀ x ∈ l₂, x < 10) →
      l₁.map Nat.digitChar = l₂.map Nat.digitChar → l₁ = l₂ := by
  intro l₁
  induction l₁ with
  | nil =>
    intro l₂ _ _ h
    cases l₂ with
    | nil => rfl
    | cons b m => simp at h
  | cons a l ih =>
    intro l₂ h₁ h₂ h
    cases l₂ with
    | nil => simp at h
    | cons b m =>
      simp only [List.map_cons, List.cons.injEq] at h
      have hab : a = b :=
        digitChar_inj_lt a (h₁ a (by simp)) b (h₂ b (by simp)) h.1
      have htl : l = m :=
        ih m (fun x hx => h₁ x (by simp [hx]))
          (fun x hx => h₂ x (by simp [hx])) h.2
      simp [hab, htl]

theorem revDigits_zero_ne {n : Nat} (hn : n ≠ 0) :
    revDigits n ≠ ['0'] := by
  intro h
  have hmap : (Nat.digits 10 n).map Nat.digitChar = ['0'] := by
    have := congrArg List.reverse h
    simpa [revDigits, hn] using this
  cases hds : Nat.digits 10 n with
  | nil => simp [hds] at hmap
  | cons d rest =>
    rw [hds] at hmap
    simp only [List.map_cons, List.cons.injEq, List.map_eq_nil_iff] at hmap
    have hd10 : d < 10 :=
      @Nat.digits_lt_base 10 n d (by norm_num) (by simp [hds])
    have hd0 : d = 0 :=
      digitChar_inj_lt d hd10 0 (by norm_num) (by rw [hmap.1]; decide)
    have hofd : n = Nat.ofDigits 10 (Nat.digits 10 n) :=
      (Nat.ofDigits_digits 10 n).symm
    rw [hds, hmap.2, hd0] at hofd
    simp [Nat.ofDigits] at hofd
    exact hn hofd

theorem revDigits_inj {m n : Nat} (h : revDigits m = revDigits n) :
    m = n := by
  by_cases hm : m = 0 <;> by_cases hn : n = 0
  · simp [hm, hn]
  · exfalso
    apply revDigits_zero_ne hn
    rw [← h, hm]
    simp [revDigits]
  · exfalso
    apply revDigits_zero_ne hm
    rw [h, hn]
    simp [revDigits]
  · have hmap : (Nat.digits 10 m).map Nat.digitChar
        = (Nat.digits 10 n).map Nat.digitChar := by
      have := congrArg List.reverse h
      simpa [revDigits, hm, hn] using this
    have hds : Nat.digits 10 m = Nat.digits 10 n :=
      map_digitChar_inj _ _
        (fun x hx => Nat.digits_lt_base (by norm_num) hx)
        (fun x hx => Nat.digits_lt_base (by norm_num) hx) hmap
    exact Nat.digits_inj_iff.mp hds

theorem nat_repr_inj {m n : Nat} (h : Nat.repr m = Nat.repr n) : m = n := by
  rw [nat_repr_eq_revDigits, nat_repr_eq_revDigits] at h
  exact revDigits_inj (asString_inj h)

theorem string_append_left_cancel {s a b : String} (h : s ++ a = s ++ b) :
    a = b := by
  have hd : s.data ++ a.data = s.data ++ b.data := by
    simpa [String.data_append] using congrArg String.data h
  have hdata : a.data = b.data := List.append_cancel_left hd
  exact congrArg String.mk hdata

theorem attrNamePlaceholder_inj {i j : Nat}
    (h : attrNamePlaceholder i = attrNamePlaceholder j) : i = j :=
  nat_repr_inj (string_append_left_cancel h)

theorem attrValuePlaceholder_inj {i j : Nat}
    (h : attrValuePlaceholder i = attrValuePlaceholder j) : i = j :=
  nat_repr_inj (string_append_left_cancel h)

/-! ### Structure of the dynamic update expression -/

/-- Selects the fields the builder keeps: everything except the key `id`. -/
def nonId (p : String × String) : Bool := if p.1 = "id" then false else true

theorem nonId_eq_true {p : String × String} : nonId p = true ↔ p.1 ≠ "id" := by
  unfold nonId
  split <;> simp_all

theorem buildUpdateExpr_bounds :
    ∀ (l : List (String × String)) (i : Nat),
      (∀ c ∈ (buildUpdateExpr l i).clauses,
        ∃ j, i ≤ j ∧ c = (attrNamePlaceholder j, attrValuePlaceholder j)) ∧
      (∀ p ∈ (buildUpdateExpr l i).names,
        ∃ j, i ≤ j ∧ p.1 = attrNamePlaceholder j) ∧
      (∀ p ∈ (buildUpdateExpr l i).values,
        ∃ j, i ≤ j ∧ p.1 = attrValuePlaceholder j) := by
  intro l
  induction l with
  | nil =>
    intro i
    refine ⟨?_, ?_, ?_⟩ <;> simp [buildUpdateExpr]
  | cons kv rest ih =>
    intro i
    obtain ⟨key, value⟩ := kv
    obtain ⟨ihc, ihn, ihv⟩ := ih (i + 1)
    by_cases hk : key = "id"
    · simp only [buildUpdateExpr, if_pos hk]
      refine ⟨fun c hc => ?_, fun p hp => ?_, fun p hp => ?_⟩
      · obtain ⟨j, hj, hcj⟩ := ihc c hc
        exact ⟨j, by omega, hcj⟩
      · obtain ⟨j, hj, hpj⟩ := ihn p hp
        exact ⟨j, by omega, hpj⟩
      · obtain ⟨j, hj, hpj⟩ := ihv p hp
        exact ⟨j, by omega, hpj⟩
    · simp only [buildUpdateExpr, if_neg hk]
      refine ⟨fun c hc => ?_, fun p hp => ?_, fun p hp => ?_⟩
      · rcases List.mem_cons.mp hc with h | h
        · exact ⟨i, le_refl i, h⟩
        · obtain ⟨j, hj, hcj⟩ := ihc c h
          exact ⟨j, by omega, hcj⟩
      · rcases List.mem_cons.mp hp with h | h
        · exact ⟨i, le_refl i, by simp [h]⟩
        · obtain ⟨j, hj, hpj⟩ := ihn p h
          exact ⟨j, by omega, hpj⟩
      · rcases List.mem_cons.mp hp with h | h
        · exact ⟨i, le_refl i, by simp [h]⟩
        · obtain ⟨j, hj, hpj⟩ := ihv p h
          exact ⟨j, by omega, hpj⟩

theorem buildUpdateExpr_projections :
    ∀ (l : List (String × String)) (i : Nat),
      (buildUpdateExpr l i).clauses.length = (l.filter nonId).length ∧
      (buildUpdateExpr l i).names.map Prod.snd
        = (l.filter nonId).map Prod.fst ∧
      (buildUpdateExpr l i).values.map Prod.snd
        = (l.filter nonId).map Prod.snd := by
  intro l
  induction l with
  | nil => intro i; simp [buildUpdateExpr]
  | cons kv rest ih =>
    intro i
    obtain ⟨key, value⟩ := kv
    obtain ⟨ihl, ihn, ihv⟩ := ih (i + 1)
    by_cases hk : key = "id"
    · subst hk
      have hni : nonId ("id", value) = false := by simp [nonId]
      simp [buildUpdateExpr, List.filter_cons, hni, ihl, ihn, ihv]
    · have hni : nonId (key, value) = true := by simp [nonId, hk]
      simp [buildUpdateExpr, hk, List.filter_cons, hni, ihl, ihn, ihv]

theorem buildUpdateExpr_keys_nodup :
    ∀ (l : List (String × String)) (i : Nat),
      ((buildUpdateExpr l i).names.map Prod.fst).Nodup ∧
      ((buildUpdateExpr l i).values.map Prod.fst).Nodup := by
  intro l
  induction l with
  | nil => intro i; simp [buildUpdateExpr]
  | cons kv rest ih =>
    intro i
    obtain ⟨key, value⟩ := kv
    obtain ⟨ihn, ihv⟩ := ih (i + 1)
    by_cases hk : key = "id"
    · simpa [buildUpdateExpr, hk] using ⟨ihn, ihv⟩
    · obtain ⟨-, hbn, hbv⟩ := buildUpdateExpr_bounds rest (i + 1)
      constructor
      · simp only [buildUpdateExpr, if_neg hk, List.map_cons, List.nodup_cons]
        refine ⟨fun hmem => ?_, ihn⟩
        rcases List.mem_map.mp hmem with ⟨p, hp, hpk⟩
        obtain ⟨j, hj, hpj⟩ := hbn p hp
        have hji : j = i := attrNamePlaceholder_inj (hpj.symm.trans hpk)
        omega
      · simp only [buildUpdateExpr, if_neg hk, List.map_cons, List.nodup_cons]
        refine ⟨fun hmem => ?_, ihv⟩
        rcases List.mem_map.mp hmem with ⟨p, hp, hpk⟩
        obtain ⟨j, hj, hpj⟩ := hbv p hp
        have hji : j = i := attrValuePlaceholder_inj (hpj.symm.trans hpk)
        omega

theorem resolveClause_extend {cl cl' : List (String × String)}
    {names values : List (String × String)} (a₀ k₀ v₀ w₀ : String)
    {c : String × String} (hn : c.1 ≠ a₀) (hv : c.2 ≠ v₀) :
    resolveClause ⟨cl, (a₀, k₀) :: names, (v₀, w₀) :: values⟩ c
      = resolveClause ⟨cl', names, values⟩ c := by
  simp [resolveClause, getK, Ne.symm hn, Ne.symm hv]

theorem filterMap_ext_mem {α β : Type} {f g : α → Option β} :
    ∀ {l : List α}, (∀ a ∈ l, f a = g a) → l.filterMap f = l.filterMap g := by
  intro l
  induction l with
  | nil => intro _; rfl
  | cons a t ih =>
    intro h
    have hhead := h a (by simp)
    have htail := ih fun b hb => h b (by simp [hb])
    simp only [List.filterMap_cons, hhead, htail]

theorem buildUpdateExpr_resolved :
    ∀ (l : List (String × String)) (i : Nat),
      (buildUpdateExpr l i).clauses.filterMap
        (resolveClause (buildUpdateExpr l i)) = l.filter nonId := by
  intro l
  induction l with
  | nil => intro i; simp [buildUpdateExpr]
  | cons kv rest ih =>
    intro i
    obtain ⟨key, value⟩ := kv
    by_cases hk : key = "id"
    · subst hk
      have hni : nonId ("id", value) = false := by simp [nonId]
      simp [buildUpdateExpr, List.filter_cons, hni, ih (i + 1)]
    · obtain ⟨hbc, -, -⟩ := buildUpdateExpr_bounds rest (i + 1)
      have hni : nonId (key, value) = true := by simp [nonId, hk]
      have hcong : ∀ c ∈ (buildUpdateExpr rest (i + 1)).clauses,
          resolveClause
            ⟨(attrNamePlaceholder i, attrValuePlaceholder i)
                :: (buildUpdateExpr rest (i + 1)).clauses,
             (attrNamePlaceholder i, key)
                :: (buildUpdateExpr rest (i + 1)).names,
             (attrValuePlaceholder i, value)
                :: (buildUpdateExpr rest (i + 1)).values⟩ c
            = resolveClause (buildUpdateExpr rest (i + 1)) c := by
        intro c hc
        obtain ⟨j, hj, hcj⟩ := hbc c hc
        have hcn : c.1 ≠ attrNamePlaceholder i := by
          rw [hcj]
          intro hbad
          have := attrNamePlaceholder_inj hbad
          omega
        have hcv : c.2 ≠ attrValuePlaceholder i := by
          rw [hcj]
          intro hbad
          have := attrValuePlaceholder_inj hbad
          omega
        exact resolveClause_extend _ _ _ _ hcn hcv
      have hhead :
          resolveClause
            ⟨(attrNamePlaceholder i, attrValuePlaceholder i)
                :: (buildUpdateExpr rest (i + 1)).clauses,
             (attrNamePlaceholder i, key)
                :: (buildUpdateExpr rest (i + 1)).names,
             (attrValuePlaceholder i, value)
                :: (buildUpdateExpr rest (i + 1)).values⟩
            (attrNamePlaceholder i, attrValuePlaceholder i)
            = some (key, value) := by
        simp [resolveClause, getK]
      simp only [buildUpdateExpr, if_neg hk, List.filter_cons, hni,
        List.filterMap_cons, hhead]
      rw [filterMap_ext_mem hcong, ih (i + 1)]
      simp

/-- The builder never produces an empty clause list unless every payload
entry is the key `id`. -/
theorem buildUpdateExpr_clauses_eq_nil_iff :
    ∀ (l : List (String × String)) (i : Nat),
      (buildUpdateExpr l i).clauses = [] ↔ ∀ p ∈ l, p.1 = "id" := by
  intro l
  induction l with
  | nil => intro i; simp [buildUpdateExpr]
  | cons kv rest ih =>
    intro i
    obtain ⟨key, value⟩ := kv
    by_cases hk : key = "id"
    · simp [buildUpdateExpr, hk, ih (i + 1)]
    · simp [buildUpdateExpr, hk]

/-! ### Behaviour of the repository operations -/

theorem itemId_withTimestamps (item : Obj) (now : String) :
    itemId (BaseRepository.withTimestamps item now) = itemId item := by
  unfold itemId BaseRepository.withTimestamps
  rw [getK_setK_ne _ _ (by decide), getK_setK_ne _ _ (by decide)]

theorem BaseRepository.withTimestamps_createdAt (item : Obj) (now : String) :
    getK (BaseRepository.withTimestamps item now) "createdAt" = some now := by
  unfold BaseRepository.withTimestamps
  rw [getK_setK_ne _ _ (by decide), getK_setK_self]

theorem BaseRepository.withTimestamps_updatedAt (item : Obj) (now : String) :
    getK (BaseRepository.withTimestamps item now) "updatedAt" = some now := by
  unfold BaseRepository.withTimestamps
  rw [getK_setK_self]

theorem updates_with_timestamp_clauses_ne_nil (u : Obj) (now : String) :
    (buildUpdateExpr (setK u "updatedAt" now) 0).clauses ≠ [] := by
  intro h
  obtain ⟨p, hp, hpk⟩ := setK_exists_key u "updatedAt" now
  have hid := (buildUpdateExpr_clauses_eq_nil_iff _ 0).mp h p hp
  rw [hpk] at hid
  exact absurd hid (by decide)

theorem create_fresh (entityName tableName : String) (st : RepoState)
    (item : Obj) (now : String)
    (h : getK st.table (itemId item) = none) :
    BaseRepository.create entityName tableName st item now none
      = (.ok (BaseRepository.withTimestamps item now),
         ⟨setK st.table (itemId item) (BaseRepository.withTimestamps item now),
          st.log ++
            [⟨.info, "Created " ++ entityName, [("id", itemId item)]⟩]⟩) := by
  simp [BaseRepository.create, dynPutIfAbsent, itemId_withTimestamps, h]

theorem create_duplicate (entityName tableName : String) (st : RepoState)
    (item : Obj) (now : String) {stored : Obj}
    (h : getK st.table (itemId item) = some stored) :
    BaseRepository.create entityName tableName st item now none
      = (.error
          (.databaseError (entityName ++ " with this ID already exists")),
         st) := by
  simp [BaseRepository.create, dynPutIfAbsent, itemId_withTimestamps, h]

theorem update_step (entityName tableName : String) (st : RepoState)
    (id : String) (u : Obj) (now : String) {item : Obj}
    (h : getK st.table id = some item) :
    BaseRepository.update entityName tableName st id u now none
      = (.ok (applyExpr item (buildUpdateExpr (setK u "updatedAt" now) 0)),
         ⟨setK st.table id
            (applyExpr item (buildUpdateExpr (setK u "updatedAt" now) 0)),
          st.log ++ [⟨.info, "Updated " ++ entityName, [("id", id)]⟩]⟩) := by
  have hne0 := updates_with_timestamp_clauses_ne_nil u now
  have hne : (buildUpdateExpr (setK u "updatedAt" now) 0).clauses.isEmpty
      = false := by
    cases hcl : (buildUpdateExpr (setK u "updatedAt" now) 0).clauses with
    | nil => exact absurd hcl hne0
    | cons a t => rfl
  simp [BaseRepository.update, hne, dynUpdateExisting, h]

theorem update_missing (entityName tableName : String) (st : RepoState)
    (id : String) (u : Obj) (now : String)
    (h : getK st.table id = none) :
    BaseRepository.update entityName tableName st id u now none
      = (.error (.notFoundError entityName id), st) := by
  have hne0 := updates_with_timestamp_clauses_ne_nil u now
  have hne : (buildUpdateExpr (setK u "updatedAt" now) 0).clauses.isEmpty
      = false := by
    cases hcl : (buildUpdateExpr (setK u "updatedAt" now) 0).clauses with
    | nil => exact absurd hcl hne0
    | cons a t => rfl
  simp [BaseRepository.update, hne, dynUpdateExisting, h]

theorem delete_missing (entityName tableName : String) (st : RepoState)
    (id : String) (h : getK st.table id = none) :
    BaseRepository.delete entityName tableName st id none
      = (.error (.notFoundError entityName id), st) := by
  simp [BaseRepository.delete, dynDeleteExisting, h]

theorem getK_applyExpr (item : Obj) (u : Obj) (now : String) (k : String) :
    getK (applyExpr item (buildUpdateExpr (setK u "updatedAt" now) 0)) k
      = firstSome (getK ((setK u "updatedAt" now).filter nonId).reverse k)
          (getK item k) := by
  unfold applyExpr
  rw [buildUpdateExpr_resolved, getK_foldl_setK]

theorem applyExpr_id (item u : Obj) (now : String) :
    getK (applyExpr item (buildUpdateExpr (setK u "updatedAt" now) 0)) "id"
      = getK item "id" := by
  rw [getK_applyExpr]
  have hnone : getK ((setK u "updatedAt" now).filter nonId).reverse "id"
      = none := by
    apply getK_eq_none_of_keys_ne
    intro p hp
    rw [List.mem_reverse] at hp
    exact nonId_eq_true.mp (List.of_mem_filter hp)
  rw [hnone]
  rfl

theorem applyExpr_updatedAt (item : Obj) {u : Obj} (now : String)
    (hu : KeysNodup u) :
    getK (applyExpr item (buildUpdateExpr (setK u "updatedAt" now) 0))
      "updatedAt" = some now := by
  rw [getK_applyExpr]
  have hnd : KeysNodup ((setK u "updatedAt" now).filter nonId) :=
    keysNodup_filter _ (keysNodup_setK _ _ hu)
  rw [getK_reverse_of_keysNodup _ hnd,
    getK_filter _ _ _ (fun p _ hpk => by simp [nonId, hpk]),
    getK_setK_self]
  rfl

theorem applyExpr_other {item u : Obj} (now : String) {k : String}
    (hk1 : k ≠ "updatedAt") (hku : getK u k = none) :
    getK (applyExpr item (buildUpdateExpr (setK u "updatedAt" now) 0)) k
      = getK item k := by
  rw [getK_applyExpr]
  have hnone : getK ((setK u "updatedAt" now).filter nonId).reverse k
      = none := by
    apply getK_eq_none_of_keys_ne
    intro p hp
    rw [List.mem_reverse] at hp
    have hpm := List.mem_of_mem_filter hp
    rcases mem_setK hpm with hmem | hkey
    · exact keys_ne_of_getK_eq_none hku p hmem
    · rw [hkey]
      exact Ne.symm hk1
  rw [hnone]
  rfl

theorem applyExpr_empty_payload (item : Obj) (now : String) :
    applyExpr item (buildUpdateExpr (setK ([] : Obj) "updatedAt" now) 0)
      = setK item "updatedAt" now := by
  simp [applyExpr, buildUpdateExpr, setK, resolveClause, getK]

theorem applyExpr_id_only_payload (item : Obj) (x now : String) :
    applyExpr item (buildUpdateExpr (setK [("id", x)] "updatedAt" now) 0)
      = setK item "updatedAt" now := by
  simp [applyExpr, buildUpdateExpr, setK, resolveClause, getK]

/-! ### The claims -/

/-- Claim C1: calling create twice with the same id lets the first call
succeed, makes the second fail with the duplicate-signaling StorageError
(`DatabaseError` "... with this ID already exists"), and the stored record
for that id afterwards remains exactly the first call's stored payload; the
second create changes neither the table nor the log. -/
theorem c1_create_uniqueness (entityName tableName : String)
    (st : RepoState) (item₁ item₂ : Obj) (now₁ now₂ : String)
    (hfresh : getK st.table (itemId item₁) = none)
    (hsame : itemId item₂ = itemId item₁) :
    (BaseRepository.create entityName tableName st item₁ now₁ none).1
      = .ok (BaseRepository.withTimestamps item₁ now₁) ∧
    getK (BaseRepository.create entityName tableName st item₁ now₁
        none).2.table (itemId item₁)
      = some (BaseRepository.withTimestamps item₁ now₁) ∧
    (BaseRepository.create entityName tableName
        (BaseRepository.create entityName tableName st item₁ now₁ none).2
        item₂ now₂ none).1
      = .error
          (.databaseError (entityName ++ " with this ID already exists")) ∧
    (BaseRepository.create entityName tableName
        (BaseRepository.create entityName tableName st item₁ now₁ none).2
        item₂ now₂ none).2
      = (BaseRepository.create entityName tableName st item₁ now₁ none).2 ∧
    getK (BaseRepository.create entityName tableName
        (BaseRepository.create entityName tableName st item₁ now₁ none).2
        item₂ now₂ none).2.table (itemId item₁)
      = some (BaseRepository.withTimestamps item₁ now₁) := by
  have h₁ := create_fresh entityName tableName st item₁ now₁ hfresh
  have hstored : getK (BaseRepository.create entityName tableName st item₁
      now₁ none).2.table (itemId item₁)
      = some (BaseRepository.withTimestamps item₁ now₁) := by
    rw [h₁]
    exact getK_setK_self _ _ _
  have hdup : getK (BaseRepository.create entityName tableName st item₁
      now₁ none).2.table (itemId item₂)
      = some (BaseRepository.withTimestamps item₁ now₁) := by
    rw [hsame]
    exact hstored
  have h₂ := create_duplicate entityName tableName
    (BaseRepository.create entityName tableName st item₁ now₁ none).2
    item₂ now₂ hdup
  refine ⟨by rw [h₁], hstored, by rw [h₂], by rw [h₂], ?_⟩
  rw [h₂]
  exact hstored

/-- Claim C1 witness at a concrete store, payloads and clock readings. -/
theorem c1_create_uniqueness_witness :
    getK (RepoState.mk [] []).table
      (itemId [("id", "p1"), ("name", "Hammer")]) = none ∧
    itemId [("id", "p1"), ("name", "Axe")]
      = itemId [("id", "p1"), ("name", "Hammer")] ∧
    (BaseRepository.create "Product" "products" ⟨[], []⟩
        [("id", "p1"), ("name", "Hammer")] "2024-01-01T00:00:00.000Z" none).1
      = .ok (BaseRepository.withTimestamps [("id", "p1"), ("name", "Hammer")]
          "2024-01-01T00:00:00.000Z") :=
  ⟨by decide, by decide,
    (c1_create_uniqueness "Product" "products" ⟨[], []⟩
      [("id", "p1"), ("name", "Hammer")] [("id", "p1"), ("name", "Axe")]
      "2024-01-01T00:00:00.000Z" "2024-01-02T00:00:00.000Z"
      (by decide) (by decide)).1⟩

/-- Claim C2: update and delete on an id absent from the store fail with
`NotFoundError` carrying the entity kind name and the requested id, and
return the state (table and log) completely unchanged. -/
theorem c2_mutation_on_missing_id (entityName tableName : String)
    (st : RepoState) (id : String) (u : Obj) (now : String)
    (habsent : getK st.table id = none) :
    BaseRepository.update entityName tableName st id u now none
      = (.error (.notFoundError entityName id), st) ∧
    BaseRepository.delete entityName tableName st id none
      = (.error (.notFoundError entityName id), st) :=
  ⟨update_missing entityName tableName st id u now habsent,
   delete_missing entityName tableName st id habsent⟩

/-- Claim C2 witness at a concrete store and payload. -/
theorem c2_mutation_on_missing_id_witness :
    getK (RepoState.mk [("p1", [("id", "p1")])] []).table "p2" = none ∧
    BaseRepository.update "Product" "products"
        ⟨[("p1", [("id", "p1")])], []⟩ "p2" [("name", "Axe")]
        "2024-01-02T00:00:00.000Z" none
      = (.error (.notFoundError "Product" "p2"),
         ⟨[("p1", [("id", "p1")])], []⟩) :=
  ⟨by decide,
    (c2_mutation_on_missing_id "Product" "products"
      ⟨[("p1", [("id", "p1")])], []⟩ "p2" [("name", "Axe")]
      "2024-01-02T00:00:00.000Z" (by decide)).1⟩

/-- Claim C3 counterexample: the claimed empty-update short-circuit never
fires.  On an existing record, `update(id, {})` issues a write (the table
and log change), refreshes the stored `updatedAt`, and does not return the
unchanged stored entity: the injected `updatedAt` makes the payload
non-empty before the emptiness check. -/
theorem c3_empty_update_counterexample :
    (BaseRepository.update "Product" "products"
        ⟨[("p1", [("id", "p1"), ("name", "Hammer"),
          ("createdAt", "2024-01-01T00:00:00.000Z"),
          ("updatedAt", "2024-01-01T00:00:00.000Z")])], []⟩
        "p1" [] "2024-01-02T00:00:00.000Z" none).2.table
      ≠ [("p1", [("id", "p1"), ("name", "Hammer"),
          ("createdAt", "2024-01-01T00:00:00.000Z"),
          ("updatedAt", "2024-01-01T00:00:00.000Z")])] ∧
    (BaseRepository.update "Product" "products"
        ⟨[("p1", [("id", "p1"), ("name", "Hammer"),
          ("createdAt", "2024-01-01T00:00:00.000Z"),
          ("updatedAt", "2024-01-01T00:00:00.000Z")])], []⟩
        "p1" [] "2024-01-02T00:00:00.000Z" none).2.log ≠ [] ∧
    getK ((getK (BaseRepository.update "Product" "products"
        ⟨[("p1", [("id", "p1"), ("name", "Hammer"),
          ("createdAt", "2024-01-01T00:00:00.000Z"),
          ("updatedAt", "2024-01-01T00:00:00.000Z")])], []⟩
        "p1" [] "2024-01-02T00:00:00.000Z" none).2.table "p1").getD [])
        "updatedAt" = some "2024-01-02T00:00:00.000Z" ∧
    (BaseRepository.update "Product" "products"
        ⟨[("p1", [("id", "p1"), ("name", "Hammer"),
          ("createdAt", "2024-01-01T00:00:00.000Z"),
          ("updatedAt", "2024-01-01T00:00:00.000Z")])], []⟩
        "p1" [] "2024-01-02T00:00:00.000Z" none).1
      ≠ .ok [("id", "p1"), ("name", "Hammer"),
          ("createdAt", "2024-01-01T00:00:00.000Z"),
          ("updatedAt", "2024-01-01T00:00:00.000Z")] := by
  decide

/-- Claim C3 (amended): because `updatedAt` is injected into the payload
before the expression is built, the short-circuit branch is unreachable;
`update(id, {})` and `update(id, {id: x})` each issue a write that sets
exactly `updatedAt` to the current time, leave every other stored field
unchanged, and return the stored entity with the refreshed `updatedAt`. -/
theorem c3_empty_update_amended (entityName tableName : String)
    (st : RepoState) (id : String) (x now : String) {item : Obj}
    (h : getK st.table id = some item) :
    BaseRepository.update entityName tableName st id [] now none
      = (.ok (setK item "updatedAt" now),
         ⟨setK st.table id (setK item "updatedAt" now),
          st.log ++ [⟨.info, "Updated " ++ entityName, [("id", id)]⟩]⟩) ∧
    BaseRepository.update entityName tableName st id [("id", x)] now none
      = (.ok (setK item "updatedAt" now),
         ⟨setK st.table id (setK item "updatedAt" now),
          st.log ++ [⟨.info, "Updated " ++ entityName, [("id", id)]⟩]⟩) := by
  constructor
  · rw [update_step entityName tableName st id [] now h,
      applyExpr_empty_payload]
  · rw [update_step entityName tableName st id [("id", x)] now h,
      applyExpr_id_only_payload]

/-- Claim C3 amended witness at a concrete store. -/
theorem c3_empty_update_amended_witness :
    getK (RepoState.mk [("p1", [("id", "p1"), ("name", "Hammer")])] []).table
        "p1" = some [("id", "p1"), ("name", "Hammer")] ∧
    BaseRepository.update "Product" "products"
        ⟨[("p1", [("id", "p1"), ("name", "Hammer")])], []⟩ "p1" []
        "2024-01-02T00:00:00.000Z" none
      = (.ok (setK [("id", "p1"), ("name", "Hammer")] "updatedAt"
            "2024-01-02T00:00:00.000Z"),
         ⟨setK [("p1", [("id", "p1"), ("name", "Hammer")])] "p1"
            (setK [("id", "p1"), ("name", "Hammer")] "updatedAt"
              "2024-01-02T00:00:00.000Z"),
          [] ++ [⟨.info, "Updated " ++ "Product", [("id", "p1")]⟩]⟩) :=
  ⟨by decide,
    (c3_empty_update_amended "Product" "products"
      ⟨[("p1", [("id", "p1"), ("name", "Hammer")])], []⟩ "p1" "ignored"
      "2024-01-02T00:00:00.000Z" (by decide)).1⟩

/-- Claim C4: the id field is never written by update.  For every payload
the updated record keeps the stored record's `id` attribute, and for the
specific payload `{id: other, name: "x"}` the `name` field becomes `"x"`
while `id` is untouched. -/
theorem c4_id_immutable_in_update (entityName tableName : String)
    (st : RepoState) (id : String) (u : Obj) (other now : String)
    {item : Obj} (h : getK st.table id = some item) :
    (∃ newItem,
      (BaseRepository.update entityName tableName st id u now none).1
        = .ok newItem ∧
      (BaseRepository.update entityName tableName st id u now none).2.table
        = setK st.table id newItem ∧
      getK newItem "id" = getK item "id") ∧
    (∃ newItem,
      (BaseRepository.update entityName tableName st id
          [("id", other), ("name", "x")] now none).1 = .ok newItem ∧
      getK newItem "id" = getK item "id" ∧
      getK newItem "name" = some "x") := by
  constructor
  · refine ⟨applyExpr item (buildUpdateExpr (setK u "updatedAt" now) 0),
      ?_, ?_, applyExpr_id item u now⟩
    · rw [update_step entityName tableName st id u now h]
    · rw [update_step entityName tableName st id u now h]
  · refine ⟨applyExpr item
      (buildUpdateExpr (setK [("id", other), ("name", "x")] "updatedAt" now)
        0), ?_, applyExpr_id item _ now, ?_⟩
    · rw [update_step entityName tableName st id
        [("id", other), ("name", "x")] now h]
    · rw [getK_applyExpr]
      simp [setK, nonId, getK, firstSome, List.filter]

/-- Claim C4 witness at a concrete store. -/
theorem c4_id_immutable_in_update_witness :
    getK (RepoState.mk [("p1", [("id", "p1"), ("name", "Hammer")])] []).table
        "p1" = some [("id", "p1"), ("name", "Hammer")] ∧
    (∃ newItem,
      (BaseRepository.update "Product" "products"
          ⟨[("p1", [("id", "p1"), ("name", "Hammer")])], []⟩ "p1"
          [("id", "other"), ("name", "x")] "2024-01-02T00:00:00.000Z"
          none).1 = .ok newItem ∧
      getK newItem "id" = getK [("id", "p1"), ("name", "Hammer")] "id" ∧
      getK newItem "name" = some "x") :=
  ⟨by decide,
    (c4_id_immutable_in_update "Product" "products"
      ⟨[("p1", [("id", "p1"), ("name", "Hammer")])], []⟩ "p1"
      [("name", "y")] "other" "2024-01-02T00:00:00.000Z" (by decide)).2⟩

/-- Claim C5 counterexample: an update payload that itself contains a
`createdAt` field overwrites the stored `createdAt` — the builder skips
only the key `id`, so `createdAt` is written like any other field. -/
theorem c5_timestamps_counterexample :
    getK [("id", "p1"), ("createdAt", "2024-01-01T00:00:00.000Z"),
        ("updatedAt", "2024-01-01T00:00:00.000Z")] "createdAt"
      = some "2024-01-01T00:00:00.000Z" ∧
    getK ((getK (BaseRepository.update "Product" "products"
        ⟨[("p1", [("id", "p1"), ("createdAt", "2024-01-01T00:00:00.000Z"),
          ("updatedAt", "2024-01-01T00:00:00.000Z")])], []⟩
        "p1" [("createdAt", "1999-01-01T00:00:00.000Z")]
        "2024-01-02T00:00:00.000Z" none).2.table "p1").getD [])
        "createdAt" = some "1999-01-01T00:00:00.000Z" := by
  decide

theorem updateSeq_invariant (entityName tableName : String) (id : String) :
    ∀ (seq : List (Obj × String)) (st : RepoState) (item : Obj)
      (c t now₀ : String),
      getK st.table id = some item →
      getK item "createdAt" = some c →
      getK item "updatedAt" = some t →
      now₀ ≤ t →
      (∀ p ∈ seq,
        getK p.1 "createdAt" = none ∧ KeysNodup p.1 ∧ now₀ ≤ p.2) →
      ∃ fin t',
        getK (updateSeq entityName tableName st id seq).table id
          = some fin ∧
        getK fin "createdAt" = some c ∧
        getK fin "updatedAt" = some t' ∧ now₀ ≤ t' := by
  intro seq
  induction seq with
  | nil =>
    intro st item c t now₀ h hc ht hle _
    exact ⟨item, t, h, hc, ht, hle⟩
  | cons p rest ih =>
    intro st item c t now₀ h hc ht hle hseq
    obtain ⟨u, now⟩ := p
    obtain ⟨hu_c, hu_nd, hu_le⟩ := hseq (u, now) (by simp)
    have hstep := update_step entityName tableName st id u now h
    have hnext : getK (BaseRepository.update entityName tableName st id u
        now none).2.table id
        = some (applyExpr item
            (buildUpdateExpr (setK u "updatedAt" now) 0)) := by
      rw [hstep]
      exact getK_setK_self _ _ _
    have hc' : getK (applyExpr item
        (buildUpdateExpr (setK u "updatedAt" now) 0)) "createdAt"
        = some c := by
      rw [applyExpr_other now (by decide) hu_c]
      exact hc
    have ht' : getK (applyExpr item
        (buildUpdateExpr (setK u "updatedAt" now) 0)) "updatedAt"
        = some now :=
      applyExpr_updatedAt item now hu_nd
    have hrest := ih
      (BaseRepository.update entityName tableName st id u now none).2
      _ c now now₀ hnext hc' ht' hu_le
      (fun q hq => hseq q (by simp [hq]))
    simpa [updateSeq] using hrest

/-- Claim C5 (amended): create sets `createdAt = updatedAt = now`; across
any sequence of subsequent updates whose payloads do not themselves contain
a `createdAt` field, `createdAt` never changes, while `updatedAt` is
refreshed to the clock value of every applied update, so with a
non-decreasing clock the final `updatedAt` is ≥ the `updatedAt` at
creation. -/
theorem c5_timestamps_amended (entityName tableName : String)
    (st : RepoState) (item : Obj) (now₀ : String)
    (seq : List (Obj × String))
    (hfresh : getK st.table (itemId item) = none)
    (hseq : ∀ p ∈ seq,
      getK p.1 "createdAt" = none ∧ KeysNodup p.1 ∧ now₀ ≤ p.2) :
    (BaseRepository.create entityName tableName st item now₀ none).1
      = .ok (BaseRepository.withTimestamps item now₀) ∧
    getK (BaseRepository.withTimestamps item now₀) "createdAt"
      = some now₀ ∧
    getK (BaseRepository.withTimestamps item now₀) "updatedAt"
      = some now₀ ∧
    ∃ fin t',
      getK (updateSeq entityName tableName
          (BaseRepository.create entityName tableName st item now₀ none).2
          (itemId item) seq).table (itemId item) = some fin ∧
      getK fin "createdAt" = some now₀ ∧
      getK fin "updatedAt" = some t' ∧ now₀ ≤ t' := by
  have h₁ := create_fresh entityName tableName st item now₀ hfresh
  refine ⟨by rw [h₁], BaseRepository.withTimestamps_createdAt item now₀,
    BaseRepository.withTimestamps_updatedAt item now₀, ?_⟩
  have hinit : getK (BaseRepository.create entityName tableName st item
      now₀ none).2.table (itemId item)
      = some (BaseRepository.withTimestamps item now₀) := by
    rw [h₁]
    exact getK_setK_self _ _ _
  exact updateSeq_invariant entityName tableName (itemId item) seq _ _
    now₀ now₀ now₀ hinit
    (BaseRepository.withTimestamps_createdAt item now₀)
    (BaseRepository.withTimestamps_updatedAt item now₀)
    (le_refl now₀) hseq

/-- Claim C5 amended witness at a concrete store and payload sequence. -/
theorem c5_timestamps_amended_witness :
    getK (RepoState.mk [] []).table (itemId [("id", "p1")]) = none ∧
    (∀ p ∈ [(([("name", "Axe")] : Obj), "2024-01-01T00:00:00.000Z")],
      getK p.1 "createdAt" = none ∧ KeysNodup p.1 ∧
        "2024-01-01T00:00:00.000Z" ≤ p.2) ∧
    (∃ fin t',
      getK (updateSeq "Product" "products"
          (BaseRepository.create "Product" "products" ⟨[], []⟩
            [("id", "p1")] "2024-01-01T00:00:00.000Z" none).2
          (itemId [("id", "p1")])
          [(([("name", "Axe")] : Obj), "2024-01-01T00:00:00.000Z")]).table
        (itemId [("id", "p1")]) = some fin ∧
      getK fin "createdAt" = some "2024-01-01T00:00:00.000Z" ∧
      getK fin "updatedAt" = some t' ∧
      "2024-01-01T00:00:00.000Z" ≤ t') := by
  have hs : ∀ p ∈ [(([("name", "Axe")] : Obj), "2024-01-01T00:00:00.000Z")],
      getK p.1 "createdAt" = none ∧ KeysNodup p.1 ∧
        "2024-01-01T00:00:00.000Z" ≤ p.2 := by
    intro p hp
    rw [List.mem_singleton] at hp
    subst hp
    exact ⟨by decide, by decide, le_refl _⟩
  exact ⟨by decide, hs,
    (c5_timestamps_amended "Product" "products" ⟨[], []⟩ [("id", "p1")]
      "2024-01-01T00:00:00.000Z"
      [(([("name", "Axe")] : Obj), "2024-01-01T00:00:00.000Z")]
      (by decide) hs).2.2.2⟩

/-- Claim C6: for every payload, the builder produces exactly one
`placeholder = placeholder` clause per non-id field of the
`updatedAt`-augmented payload; the attribute-name and value placeholders
are pairwise distinct; the name table lists exactly the original field
names and the value table exactly the supplied values, in order; every
clause consists solely of the two synthetic placeholders (so no raw field
name appears in the expression text and reserved-word field names cannot
collide); and resolving the clauses through the two tables recovers
exactly the non-id fields with their values. -/
theorem c6_update_expression_builder (updates : Obj) (now : String) :
    (buildUpdateExpr (setK updates "updatedAt" now) 0).clauses.length
      = ((setK updates "updatedAt" now).filter nonId).length ∧
    ((buildUpdateExpr (setK updates "updatedAt" now) 0).names.map
      Prod.fst).Nodup ∧
    ((buildUpdateExpr (setK updates "updatedAt" now) 0).values.map
      Prod.fst).Nodup ∧
    (buildUpdateExpr (setK updates "updatedAt" now) 0).names.map Prod.snd
      = ((setK updates "updatedAt" now).filter nonId).map Prod.fst ∧
    (buildUpdateExpr (setK updates "updatedAt" now) 0).values.map Prod.snd
      = ((setK updates "updatedAt" now).filter nonId).map Prod.snd ∧
    (∀ c ∈ (buildUpdateExpr (setK updates "updatedAt" now) 0).clauses,
      ∃ i, c = (attrNamePlaceholder i, attrValuePlaceholder i) ∧
        clauseStr c
          = attrNamePlaceholder i ++ " = " ++ attrValuePlaceholder i) ∧
    (buildUpdateExpr (setK updates "updatedAt" now) 0).clauses.filterMap
        (resolveClause (buildUpdateExpr (setK updates "updatedAt" now) 0))
      = (setK updates "updatedAt" now).filter nonId := by
  obtain ⟨h1, h2, h3⟩ :=
    buildUpdateExpr_projections (setK updates "updatedAt" now) 0
  obtain ⟨h4, h5⟩ :=
    buildUpdateExpr_keys_nodup (setK updates "updatedAt" now) 0
  obtain ⟨h6, -, -⟩ :=
    buildUpdateExpr_bounds (setK updates "updatedAt" now) 0
  refine ⟨h1, h4, h5, h2, h3, ?_,
    buildUpdateExpr_resolved (setK updates "updatedAt" now) 0⟩
  intro c hc
  obtain ⟨j, -, hcj⟩ := h6 c hc
  refine ⟨j, hcj, ?_⟩
  rw [hcj]
  rfl

/-- Claim C7: create followed by getById on the same id returns exactly the
entity returned by create (input fields plus injected timestamps), not the
not-found sentinel or a different record. -/
theorem c7_create_getById_roundtrip (entityName tableName : String)
    (st : RepoState) (item : Obj) (now : String)
    (hfresh : getK st.table (itemId item) = none) :
    (BaseRepository.create entityName tableName st item now none).1
      = .ok (BaseRepository.withTimestamps item now) ∧
    (BaseRepository.getById entityName tableName
        (BaseRepository.create entityName tableName st item now none).2
        (itemId item) none).1
      = .ok (some (BaseRepository.withTimestamps item now)) := by
  have h₁ := create_fresh entityName tableName st item now hfresh
  constructor
  · rw [h₁]
  · rw [h₁]
    simp [BaseRepository.getById, dynGet, getK_setK_self]

/-- Claim C7 witness at a concrete store. -/
theorem c7_create_getById_roundtrip_witness :
    getK (RepoState.mk [] []).table
      (itemId [("id", "p1"), ("name", "Hammer")]) = none ∧
    (BaseRepository.getById "Product" "products"
        (BaseRepository.create "Product" "products" ⟨[], []⟩
          [("id", "p1"), ("name", "Hammer")] "2024-01-01T00:00:00.000Z"
          none).2
        (itemId [("id", "p1"), ("name", "Hammer")]) none).1
      = .ok (some (BaseRepository.withTimestamps
          [("id", "p1"), ("name", "Hammer")] "2024-01-01T00:00:00.000Z")) :=
  ⟨by decide,
    (c7_create_getById_roundtrip "Product" "products" ⟨[], []⟩
      [("id", "p1"), ("name", "Hammer")] "2024-01-01T00:00:00.000Z"
      (by decide)).2⟩

/-- Claim C8 counterexample: a duplicate-id create is a failure path that
re-raises a typed error without first emitting any log event — the
conditional-check branch throws before the logging statement is reached. -/
theorem c8_error_logging_counterexample :
    (BaseRepository.create "Product" "products"
        ⟨[("p1", [("id", "p1")])], []⟩ [("id", "p1"), ("name", "Axe")]
        "2024-01-02T00:00:00.000Z" none).1
      = .error (.databaseError "Product with this ID already exists") ∧
    (BaseRepository.create "Product" "products"
        ⟨[("p1", [("id", "p1")])], []⟩ [("id", "p1"), ("name", "Axe")]
        "2024-01-02T00:00:00.000Z" none).2.log = [] := by
  decide

/-- Claim C8 (amended): every failure other than a conditional-check
failure is logged with context (table name, id where applicable, and the
underlying cause) before being re-raised as a typed `DatabaseError`;
conditional-check failures — duplicate id on create, missing id on
update/delete — are re-raised as their typed errors (`DatabaseError`
duplicate-id, `NotFoundError`) without a preceding log event and with the
state otherwise unchanged. -/
theorem c8_error_logging_amended (entityName tableName : String)
    (st : RepoState) (id : String) (item u : Obj) (now : String)
    (limit : Option Nat) (n : String) {stored : Obj}
    (hn : n ≠ conditionalCheckFailed)
    (habsent : getK st.table id = none)
    (hdup : getK st.table (itemId item) = some stored) :
    BaseRepository.getById entityName tableName st id (some n)
      = (.error (.databaseError ("Failed to retrieve " ++ entityName)),
         ⟨st.table, st.log ++
           [⟨.error, "Failed to get " ++ entityName ++ " by ID",
             [("tableName", tableName), ("id", id), ("error", n)]⟩]⟩) ∧
    BaseRepository.getAll entityName tableName st limit (some n)
      = (.error
          (.databaseError ("Failed to retrieve " ++ entityName ++ " list")),
         ⟨st.table, st.log ++
           [⟨.error, "Failed to scan " ++ entityName,
             [("tableName", tableName), ("error", n)]⟩]⟩) ∧
    BaseRepository.create entityName tableName st item now (some n)
      = (.error (.databaseError ("Failed to create " ++ entityName)),
         ⟨st.table, st.log ++
           [⟨.error, "Failed to create " ++ entityName,
             [("tableName", tableName), ("id", itemId item),
              ("error", n)]⟩]⟩) ∧
    BaseRepository.update entityName tableName st id u now (some n)
      = (.error (.databaseError ("Failed to update " ++ entityName)),
         ⟨st.table, st.log ++
           [⟨.error, "Failed to update " ++ entityName,
             [("tableName", tableName), ("id", id), ("error", n)]⟩]⟩) ∧
    BaseRepository.delete entityName tableName st id (some n)
      = (.error (.databaseError ("Failed to delete " ++ entityName)),
         ⟨st.table, st.log ++
           [⟨.error, "Failed to delete " ++ entityName,
             [("tableName", tableName), ("id", id), ("error", n)]⟩]⟩) ∧
    BaseRepository.create entityName tableName st item now none
      = (.error
          (.databaseError (entityName ++ " with this ID already exists")),
         st) ∧
    BaseRepository.update entityName tableName st id u now none
      = (.error (.notFoundError entityName id), st) ∧
    BaseRepository.delete entityName tableName st id none
      = (.error (.notFoundError entityName id), st) := by
  have hne : (buildUpdateExpr (setK u "updatedAt" now) 0).clauses.isEmpty
      = false := by
    cases hcl : (buildUpdateExpr (setK u "updatedAt" now) 0).clauses with
    | nil => exact absurd hcl (updates_with_timestamp_clauses_ne_nil u now)
    | cons a t => rfl
  refine ⟨?_, ?_, ?_, ?_, ?_, ?_, ?_, ?_⟩
  · simp [BaseRepository.getById, dynGet]
  · simp [BaseRepository.getAll, dynScan]
  · simp [BaseRepository.create, dynPutIfAbsent, hn]
  · simp [BaseRepository.update, dynUpdateExisting, hne, hn]
  · simp [BaseRepository.delete, dynDeleteExisting, hn]
  · exact create_duplicate entityName tableName st item now hdup
  · exact update_missing entityName tableName st id u now habsent
  · exact delete_missing entityName tableName st id habsent

/-- Claim C8 amended witness at a concrete store and injected fault. -/
theorem c8_error_logging_amended_witness :
    ("ThrottlingException" : String) ≠ conditionalCheckFailed ∧
    getK (RepoState.mk [("p1", [("id", "p1")])] []).table "p2" = none ∧
    getK (RepoState.mk [("p1", [("id", "p1")])] []).table
      (itemId [("id", "p1"), ("name", "Axe")]) = some [("id", "p1")] ∧
    BaseRepository.delete "Product" "products"
        ⟨[("p1", [("id", "p1")])], []⟩ "p2" (some "ThrottlingException")
      = (.error (.databaseError ("Failed to delete " ++ "Product")),
         ⟨[("p1", [("id", "p1")])],
          [] ++ [⟨.error, "Failed to delete " ++ "Product",
            [("tableName", "products"), ("id", "p2"),
             ("error", "ThrottlingException")]⟩]⟩) :=
  ⟨by decide, by decide, by decide,
    (@c8_error_logging_amended "Product" "products"
      ⟨[("p1", [("id", "p1")])], []⟩ "p2" [("id", "p1"), ("name", "Axe")]
      [("name", "Saw")] "2024-01-02T00:00:00.000Z" none
      "ThrottlingException" [("id", "p1")] (by decide) (by decide)
      (by decide)).2.2.2.2.1⟩

/-- Claim C9 counterexample: `getAll(0)` does not apply the cap — the
spread `...(limit && { Limit: limit })` treats the limit 0 as falsy, sends
no Limit, and the full table (here one entity, more than 0) is returned. -/
theorem c9_getAll_limit_zero_counterexample :
    (BaseRepository.getAll "Product" "products"
        ⟨[("p1", [("id", "p1")])], []⟩ (some 0) none).1
      = .ok [[("id", "p1")]] ∧
    ¬ ([[("id", "p1")]] : List Obj).length ≤ 0 := by
  decide

/-- Claim C9 (amended): `getAll` with no limit returns the full table;
`getAll(0)` also returns the full table (the falsy limit is dropped); for
every limit n ≥ 1 the cap is applied and at most n entities are
returned. -/
theorem c9_getAll_limit_amended (entityName tableName : String)
    (st : RepoState) :
    BaseRepository.getAll entityName tableName st none none
      = (.ok (st.table.map Prod.snd), st) ∧
    BaseRepository.getAll entityName tableName st (some 0) none
      = (.ok (st.table.map Prod.snd), st) ∧
    ∀ n : Nat, 0 < n →
      BaseRepository.getAll entityName tableName st (some n) none
        = (.ok ((st.table.map Prod.snd).take n), st) ∧
      ((st.table.map Prod.snd).take n).length ≤ n := by
  refine ⟨by simp [BaseRepository.getAll, dynScan],
    by simp [BaseRepository.getAll, dynScan], ?_⟩
  intro n hn
  have hn0 : n ≠ 0 := by omega
  exact ⟨by simp [BaseRepository.getAll, dynScan, hn0], by simp⟩

/-- Claim C9 amended witness at a concrete two-entity store and limit 1. -/
theorem c9_getAll_limit_amended_witness :
    (0 : Nat) < 1 ∧
    (BaseRepository.getAll "Product" "products"
        ⟨[("p1", [("id", "p1")]), ("p2", [("id", "p2")])], []⟩ (some 1)
        none
      = (.ok (((RepoState.mk
            [("p1", [("id", "p1")]), ("p2", [("id", "p2")])]
            []).table.map Prod.snd).take 1),
         ⟨[("p1", [("id", "p1")]), ("p2", [("id", "p2")])], []⟩) ∧
      (((RepoState.mk [("p1", [("id", "p1")]), ("p2", [("id", "p2")])]
          []).table.map Prod.snd).take 1).length ≤ 1) :=
  ⟨by decide,
    (c9_getAll_limit_amended "Product" "products"
      ⟨[("p1", [("id", "p1")]), ("p2", [("id", "p2")])], []⟩).2.2 1
      (by decide)⟩

/-- Claim C10: create overwrites any caller-supplied `createdAt` and
`updatedAt` with the current time — the stored and returned record carries
`createdAt = updatedAt = now` for every input item, including one that
already had timestamp fields. -/
theorem c10_create_timestamps_overwritten (entityName tableName : String)
    (st : RepoState) (item : Obj) (now : String)
    (hfresh : getK st.table (itemId item) = none) :
    getK (BaseRepository.withTimestamps item now) "createdAt" = some now ∧
    getK (BaseRepository.withTimestamps item now) "updatedAt" = some now ∧
    (BaseRepository.create entityName tableName st item now none).1
      = .ok (BaseRepository.withTimestamps item now) ∧
    getK (BaseRepository.create entityName tableName st item now
        none).2.table (itemId item)
      = some (BaseRepository.withTimestamps item now) := by
  have h₁ := create_fresh entityName tableName st item now hfresh
  refine ⟨BaseRepository.withTimestamps_createdAt item now,
    BaseRepository.withTimestamps_updatedAt item now, by rw [h₁], ?_⟩
  rw [h₁]
  exact getK_setK_self _ _ _

/-- Claim C10 witness: the input item carries stale `createdAt` and
`updatedAt` values, and both are overwritten with the creation time. -/
theorem c10_create_timestamps_overwritten_witness :
    getK (RepoState.mk [] []).table
      (itemId [("id", "p1"), ("createdAt", "1990-01-01T00:00:00.000Z"),
        ("updatedAt", "1991-01-01T00:00:00.000Z")]) = none ∧
    getK (BaseRepository.withTimestamps
        [("id", "p1"), ("createdAt", "1990-01-01T00:00:00.000Z"),
         ("updatedAt", "1991-01-01T00:00:00.000Z")]
        "2024-01-01T00:00:00.000Z") "createdAt"
      = some "2024-01-01T00:00:00.000Z" ∧
    getK (BaseRepository.withTimestamps
        [("id", "p1"), ("createdAt", "1990-01-01T00:00:00.000Z"),
         ("updatedAt", "1991-01-01T00:00:00.000Z")]
        "2024-01-01T00:00:00.000Z") "updatedAt"
      = some "2024-01-01T00:00:00.000Z" :=
  ⟨by decide,
    (c10_create_timestamps_overwritten "Product" "products" ⟨[], []⟩
      [("id", "p1"), ("createdAt", "1990-01-01T00:00:00.000Z"),
       ("updatedAt", "1991-01-01T00:00:00.000Z")]
      "2024-01-01T00:00:00.000Z" (by decide)).1,
    (c10_create_timestamps_overwritten "Product" "products" ⟨[], []⟩
      [("id", "p1"), ("createdAt", "1990-01-01T00:00:00.000Z"),
       ("updatedAt", "1991-01-01T00:00:00.000Z")]
      "2024-01-01T00:00:00.000Z" (by decide)).2.1⟩

end FitIt
